import Mathlib

/-!
Shallow embedding of the tinycoder edit pipeline (EditParser, CodeApplier,
CssValidator, the reflection loop of App.run_one) together with proofs of
the specification claims about it.

Python strings are modelled as Lean `String` / `List Char`; Python `None`
as `Option.none`; Python exceptions as `Except` values.  Mutable state is
passed explicitly.  Logging calls are dropped (pure observability), except
where a log line is the only observable distinguishing two outcomes, in
which case the embedding returns a tag naming the branch taken.
-/

namespace TinyCoder

/-! ## Python string primitives -/

/-- The ASCII whitespace characters stripped by Python `str.strip()`.
(Python also strips some non-ASCII unicode spaces; none of the claims
depend on those.) -/
def isPySpace (c : Char) : Bool :=
  c = ' ' || c = '\t' || c = '\n' || c = '\r' || c = '\x0b' || c = '\x0c'

/-- Python `str.strip()` on a list of characters. -/
def pyStrip (l : List Char) : List Char :=
  ((l.dropWhile isPySpace).reverse.dropWhile isPySpace).reverse

/-- Python `str.lower()` (ASCII letters; the inputs compared against are
the literals "y"). -/
def pyLower (s : String) : String :=
  ⟨s.data.map Char.toLower⟩

/-- Python `needle in hay` substring test. -/
def listContainsSub (pat : List Char) : List Char → Bool
  | [] => pat.isPrefixOf []
  | c :: t => pat.isPrefixOf (c :: t) || listContainsSub pat t

/-- Python `hay.replace(old, new, 1)`: replace the first (leftmost)
occurrence of `old` with `new`.  Matches CPython behaviour including the
`old = ""` edge case (insert `new` at the front). -/
def firstReplace (old new : List Char) : List Char → List Char
  | [] => if old = [] then new else []
  | c :: t =>
    if old.isPrefixOf (c :: t) then new ++ (c :: t).drop old.length
    else c :: firstReplace old new t

/-- Python `s.replace("\r\n", "\n")` (all occurrences, leftmost,
non-overlapping). -/
def normEolList : List Char → List Char
  | [] => []
  | '\r' :: '\n' :: t => '\n' :: normEolList t
  | c :: t => c :: normEolList t

/-- Line-ending normalisation on `String`, as done by
`content.replace("\r\n", "\n")` in the sources. -/
def normEol (s : String) : String := ⟨normEolList s.data⟩

/-- Python `hay.find(pat)` as an `Option` (the sources guard every use, so
`none` models the `-1` branch being taken). -/
def findSub (pat : List Char) : List Char → Option Nat
  | [] => if pat = [] then some 0 else none
  | c :: t => if pat.isPrefixOf (c :: t) then some 0 else (findSub pat t).map (· + 1)

/-- Python `s.split(sep)` for a one-character separator.  Always returns a
non-empty list (Python: `"".split(";") == [""]`). -/
def splitOnChar (sep : Char) : List Char → List (List Char)
  | [] => [[]]
  | c :: t =>
    let r := splitOnChar sep t
    if c = sep then [] :: r
    else
      match r with
      | h :: t' => (c :: h) :: t'
      | [] => [[c]]

/-! ## CssValidator (src/tinycoder/linters/css_validator.py)

Error messages are modelled as a structured type; each constructor's doc
comment gives the exact Python f-string it stands for. -/

/-- The error messages appended to `CssValidator._errors`:
* `unexpectedClose n` — "Syntax Error: Unexpected ... on or near line n."
  (the unmatched closing brace message of `_check_brace_balance`);
* `unmatchedOpen` — "Syntax Error: Unmatched ... found. End of file reached
  before closing ..." (end-of-input message of `_check_brace_balance`);
* `missingColon n d` — "Syntax Error: Missing colon in declaration near line
  n. Found: d" (from `_check_rule_structure`);
* `missingValue n d` — "Syntax Error: Missing value after colon near line n.
  Found: d" (from `_check_rule_structure`). -/
inductive CssError where
  | unexpectedClose (line : Nat)
  | unmatchedOpen
  | missingColon (line : Nat) (decl : List Char)
  | missingValue (line : Nat) (decl : List Char)
  deriving DecidableEq, Repr

/-- Embeds `CssValidator._remove_comments`:
`re.sub(r"/\*.*?\*/", "", content, flags=re.DOTALL)` — each comment opener
is paired lazily with the first terminator after it; an opener with no
terminator is left in place (the regex then matches nowhere later either,
since any later terminator would also close the earlier opener).
Structural recursion on a fuel bounded by the input length (the scan
consumes at least one character per step, so the fuel never runs out). -/
def removeCommentsF : Nat → List Char → List Char
  | 0, l => l
  | _ + 1, [] => []
  | fuel + 1, '/' :: '*' :: t =>
    (match findSub ['*', '/'] t with
     | some i => removeCommentsF fuel (t.drop (i + 2))
     | none => '/' :: '*' :: removeCommentsF fuel t)
  | fuel + 1, c :: t => c :: removeCommentsF fuel t

/-- `CssValidator._remove_comments` on a character list. -/
def removeComments (l : List Char) : List Char := removeCommentsF l.length l

/-- `CssValidator._content_no_comments` as computed by `validate` for
directly-supplied content. -/
def contentNoComments (css : String) : List Char := removeComments css.data

/-- The balance delta of one character in `_check_brace_balance`'s loop. -/
def charDelta (c : Char) : Int :=
  if c = '{' then 1 else if c = '}' then -1 else 0

/-- The running brace count of a prefix (specification-side view of the
loop variable `brace_balance`). -/
def braceBalance : List Char → Int
  | [] => 0
  | c :: t => charDelta c + braceBalance t

/-- Embeds the loop of `CssValidator._check_brace_balance`: returns the
index of the first character at which the running balance goes negative,
or `none` if that never happens. -/
def braceFirstNeg : List Char → Int → Nat → Option Nat
  | [], _, _ => none
  | c :: t, bal, i =>
    let bal' := bal + charDelta c
    if bal' < 0 then some i else braceFirstNeg t bal' (i + 1)

/-- 1-based line of character index `i`:
`content[: i + 1].count("\n") + 1`. -/
def lineOfIndex (l : List Char) (i : Nat) : Nat :=
  (l.take (i + 1)).count '\n' + 1

/-- Embeds `CssValidator._check_brace_balance` (errors appended, and the
returned bool: `false` means a fatal early unmatched closing brace). -/
def checkBraceBalance (l : List Char) : List CssError × Bool :=
  match braceFirstNeg l 0 0 with
  | some i => ([.unexpectedClose (lineOfIndex l i)], false)
  | none =>
    if braceBalance l > 0 then ([.unmatchedOpen], true) else ([], true)

/-- Embeds `re.findall(r"\x7b(.*?)\x7d", content, DOTALL)` in
`_check_rule_structure`: the contents of each lazily matched brace block
(from an opening brace to the first closing brace after it), left to
right, non-overlapping; an opening brace with no closing brace after it
ends the scan with no further matches.  Fuel as in `removeCommentsF`. -/
def ruleBlocksF : Nat → List Char → List (List Char)
  | 0, _ => []
  | _ + 1, [] => []
  | fuel + 1, '{' :: t =>
    (match findSub ['}'] t with
     | some i => t.take i :: ruleBlocksF fuel (t.drop (i + 1))
     | none => [])
  | fuel + 1, _ :: t => ruleBlocksF fuel t

/-- The block contents found by `re.findall` in `_check_rule_structure`. -/
def ruleBlocks (l : List Char) : List (List Char) := ruleBlocksF l.length l

/-- Embeds `[m.start() for m in re.finditer(r"\x7b", content)]`:
the indices of all opening braces. -/
def braceOpenIndices : List Char → Nat → List Nat
  | [], _ => []
  | c :: t, i => if c = '{' then i :: braceOpenIndices t (i + 1) else braceOpenIndices t (i + 1)

/-- Embeds the inner declaration loop of `_check_rule_structure` for one
block: split on semicolons, strip, skip empties, then report a missing
colon or a missing value after a trailing colon, with the line estimated
from the declaration position inside the block. -/
def declErrors (blockStartLine : Nat) (block : List Char) : List CssError :=
  (splitOnChar ';' (pyStrip block)).foldl
    (fun acc decl =>
      let d := pyStrip decl
      if d = [] then acc
      else
        let lineOffset :=
          match findSub d block with
          | some idx => (block.take idx).count '\n'
          | none => 0
        let errLine := blockStartLine + lineOffset
        if !(d.contains ':') then acc ++ [.missingColon errLine d]
        else if d.getLast? = some ':' then acc ++ [.missingValue errLine d]
        else acc)
    []

/-- Embeds `CssValidator._check_rule_structure`. -/
def checkRuleStructure (l : List Char) : List CssError :=
  let blocks := ruleBlocks l
  let starts := braceOpenIndices l 0
  let n := min blocks.length starts.length
  (List.range n).foldl
    (fun acc i =>
      let block := blocks.getD i []
      let start := starts.getD i 0
      let line := (l.take start).count '\n' + 1
      acc ++ declErrors line block)
    []

/-- Embeds `CssValidator.validate` for directly supplied content: remove
comments, run the brace check (abandoning everything on a fatal unmatched
closing brace), then the rule-structure check; valid iff no errors. -/
def cssValidate (css : String) : Bool × List CssError :=
  let c := contentNoComments css
  let (errs, ok) := checkBraceBalance c
  if !ok then (false, errs)
  else
    let errs2 := errs ++ checkRuleStructure c
    (errs2.isEmpty, errs2)

/-! ## CssValidator / CodeApplier construction (claim C10) -/

/-- A raised Python exception, by class and message. -/
inductive PyError where
  | valueError (msg : String)
  | ioError (msg : String)
  deriving DecidableEq, Repr

/-- Embeds `CssValidator.__init__(css_content=None, file_path=None)`:
raises `ValueError` unless exactly one of the two arguments is given;
with `file_path` it reads the file (modelled by `readF`), with
`css_content` it stores the string. -/
def cssValidatorInit (readF : String → Except PyError String)
    (cssContent filePath : Option String) : Except PyError String :=
  if (cssContent.isNone && filePath.isNone) || (cssContent.isSome && filePath.isSome) then
    .error (.valueError "Provide either css_content or file_path, not both or neither.")
  else
    match filePath with
    | some p => readF p
    | none => .ok (cssContent.getD "")

/-- Modelled from the spec: the `PythonLinter()` constructor
(`tinycoder/linters/python_linter.py` is not among the sources).  The spec
describes linters only through `lint(path, content) -> message|none`, so
construction is modelled as never raising. -/
def pythonLinterInit : Except PyError Unit := .ok ()

/-- Modelled from the spec: the `HTMLLinter()` constructor
(`tinycoder/linters/html_linter.py` is not among the sources); modelled as
never raising, as for `pythonLinterInit`. -/
def htmlLinterInit : Except PyError Unit := .ok ()

/-- Embeds the linter construction sequence of `CodeApplier.__init__`
(`code_applier.py` lines 41-43): `PythonLinter()`, `HTMLLinter()`, then
`CssValidator()` with no arguments. -/
def codeApplierInit (readF : String → Except PyError String) : Except PyError Unit := do
  let _ ← pythonLinterInit
  let _ ← htmlLinterInit
  let _ ← cssValidatorInit readF none none
  pure ()

/-! ## CodeApplier.apply_edits (src/tinycoder/code_applier.py)

The collaborators of `apply_edits` (path resolution, disk, user prompts,
linters) are supplied by an `Env`; the mutable state of `FileManager` and
the filesystem, plus the batch-local dictionaries of `apply_edits`, are
threaded explicitly as a `LoopState`.  Successive user prompt answers are
a stream `inputs : Nat -> String` consumed in order (both
`CodeApplier.input_func` and `FileManager.io_input` prompt the same
user). -/

/-- An edit instruction `(filename, search_block, replace_block)`. -/
abbrev Edit := String × String × String

/-- Pure collaborator functions of one `apply_edits` batch. -/
structure Env where
  /-- `FileManager.get_abs_path`: project-confined resolution, `none` on failure. -/
  getAbsPath : String → Option String
  /-- `FileManager._get_rel_path` (total in Python; `""` would be falsy). -/
  getRelPath : String → String
  /-- successive answers returned by the user-input prompts. -/
  inputs : Nat → String
  /-- whether writing the file at an absolute path succeeds (`write_file`). -/
  writeOk : String → Bool
  /-- whether `create_file`'s mkdir/touch succeeds for an absolute path. -/
  createOk : String → Bool
  /-- the linter dispatched on the file suffix in the lint loop
  (`python_linter`/`html_linter` are not among the sources; the CSS branch
  calls a `CssValidator.lint` method that `css_validator.py` does not
  define): `lint(path, content) -> message|none` per the spec. -/
  lintFor : String → String → Option String

/-- Mutable state threaded through one batch: `FileManager.fnames`, the
filesystem, the prompt cursor, and the local dictionaries of
`apply_edits`. -/
structure LoopState where
  fnames : List String
  disk : String → Option String
  inputIdx : Nat
  failed : List Nat
  touched : List String
  original : String → Option (Option String)
  edited : String → Option String
  created : List String

/-- The structured result of `apply_edits`. -/
structure BatchResult where
  allSucceeded : Bool
  failedIndices : List Nat
  modifiedFiles : List String
  lintErrors : List (String × String)
  deriving DecidableEq, Repr

/-- Embeds `FileManager.add_file` (file_manager.py lines 61-85) and the
`create_file` it may call: resolve the path, offer to create a missing
file (consuming one prompt answer), then add the relative path to
`fnames` if not already present.  Every `return` statement in the Python
function is bare, so `add_file` returns `None` on all paths; the `Bool`
component below is the truthiness of that return value — `false` on
every path. -/
def addFile (env : Env) (st : LoopState) (fname : String) : LoopState × Bool :=
  match env.getAbsPath fname with
  | none => (st, false)
  | some abs =>
    let rel := env.getRelPath abs
    let proceed : LoopState → LoopState × Bool := fun st' =>
      if rel ∈ st'.fnames then (st', false)
      else ({ st' with fnames := st'.fnames ++ [rel] }, false)
    if (st.disk abs).isNone then
      let answer := env.inputs st.inputIdx
      let st1 := { st with inputIdx := st.inputIdx + 1 }
      if pyLower answer = "y" then
        if env.createOk abs then
          proceed { st1 with disk := fun p => if p = abs then some "" else st1.disk p }
        else (st1, false)
      else (st1, false)
    else proceed st

/-- The in-memory case analysis of `apply_edits` (code_applier.py lines
136-196) on the current content and the normalised search/replace blocks:
CASE 1 (empty target, effectively-empty search: content becomes the
replace block), CASE 2 (strictly empty search on non-empty target:
prepend), CASE 3 (search occurs: replace first occurrence), CASE 4
(search not found: `none`, the edit fails). -/
def computeNewContent (current sb rb : String) : Option String :=
  if current = "" ∧ pyStrip sb.data = [] then some rb
  else if sb = "" then some (rb ++ current)
  else if listContainsSub sb.data current.data then
    some ⟨firstReplace sb.data rb.data current.data⟩
  else none

/-- The three ways one instruction can end, matching the three log lines
of the loop body: `applied` ("Prepared edit i for ..."), `noop`
("... resulted in no changes to current state."), `failed` (the index is
appended to `failed_edits_indices`). -/
inductive EditOutcome where
  | applied
  | noop
  | failed
  deriving DecidableEq, Repr

/-- Appending a 1-based index to `failed_edits_indices`, the shared tail
of every failing branch of the loop body. -/
def failEdit (st : LoopState) (idx : Nat) : LoopState × EditOutcome :=
  ({ st with failed := st.failed ++ [idx] }, .failed)

/-- The untracked-file confirmation gate (code_applier.py lines 100-116):
when the relative path is neither tracked nor already touched in this
batch, consume one prompt answer; on "y" call `add_file` and proceed only
if its return value is truthy (it never is — see `addFile_returns_false`);
otherwise do not proceed.  Returns the threaded state and whether the
edit may proceed. -/
def gateStep (env : Env) (st : LoopState) (fname rel : String) : LoopState × Bool :=
  if rel ∈ st.fnames ∨ rel ∈ st.touched then (st, true)
  else
    let answer := env.inputs st.inputIdx
    let stP := { st with inputIdx := st.inputIdx + 1 }
    if pyLower answer = "y" then addFile env stP fname
    else (stP, false)

/-- `touched_files.add(rel_path)` (code_applier.py line 118; set add). -/
def markTouched (st : LoopState) (rel : String) : LoopState :=
  { st with touched := if rel ∈ st.touched then st.touched else st.touched ++ [rel] }

/-- Lazy capture of the original disk content and in-memory content for a
file first touched in this batch (code_applier.py lines 121-125). -/
def readInitStep (st : LoopState) (rel abs : String) : LoopState :=
  if (st.original rel).isNone then
    let diskContent := st.disk abs
    { st with
      original := fun r => if r = rel then some diskContent else st.original r,
      edited := fun r =>
        if r = rel then some ((diskContent.map normEol).getD "") else st.edited r }
  else st

/-- Marking a file as created in this batch when CASE 1 fired for a file
absent from disk (code_applier.py lines 151-152). -/
def markCreated (st : LoopState) (rel : String) (current sb : String) : LoopState :=
  if current = "" ∧ pyStrip sb.data = [] ∧ ((st.original rel).getD none).isSome = false ∧
      rel ∉ st.created
  then { st with created := st.created ++ [rel] }
  else st

/-- Embeds one iteration of the edit loop of `apply_edits` (code_applier.py
lines 87-228) for the 1-based index `idx`: resolve the path, run the
untracked-file confirmation gate, lazily capture the original disk
content, apply the in-memory case analysis, record failure or update the
in-memory content. -/
def applyOneEdit (env : Env) (st : LoopState) (idx : Nat) (e : Edit) :
    LoopState × EditOutcome :=
  match env.getAbsPath e.1 with
  | none => failEdit st idx
  | some abs =>
    let rel := env.getRelPath abs
    if rel = "" then failEdit st idx
    else
      let g := gateStep env st e.1 rel
      if g.2 = false then failEdit g.1 idx
      else
        let st3 := readInitStep (markTouched g.1 rel) rel abs
        let current := (st3.edited rel).getD ""
        let sb := normEol e.2.1
        let rb := normEol e.2.2
        match computeNewContent current sb rb with
        | none => failEdit st3 idx
        | some newContent =>
          let st4 := markCreated st3 rel current sb
          if newContent ≠ current then
            ({ st4 with
                edited := fun r => if r = rel then some newContent else st4.edited r },
              .applied)
          else (st4, .noop)

/-- The edit loop of `apply_edits`: fold `applyOneEdit` over the batch,
`i` being the 0-based position of the next instruction. -/
def applyLoop (env : Env) : LoopState → Nat → List Edit → LoopState
  | st, _, [] => st
  | st, i, e :: rest => applyLoop env (applyOneEdit env st (i + 1) e).1 (i + 1) rest

/-- `content.replace("\n", "\r\n")` as performed by
`FileManager.write_file` when the existing file uses CRLF endings. -/
def lfToCrlf : List Char → List Char
  | [] => []
  | '\n' :: t => '\r' :: '\n' :: lfToCrlf t
  | c :: t => c :: lfToCrlf t

/-- The content actually written by `FileManager.write_file`
(file_manager.py lines 120-141): CRLF is restored when the file currently
on disk contains CRLF. -/
def writeFileContent (st : LoopState) (abs content : String) : String :=
  match st.disk abs with
  | some old => if listContainsSub ['\r', '\n'] old.data then ⟨lfToCrlf content.data⟩ else content
  | none => content

/-- Embeds one iteration of the finalize loop of `apply_edits`
(code_applier.py lines 232-273): resolve the touched path (failure sets
the write-failed flag), decide whether the file needs writing (created
files with in-memory content; otherwise final content differing from the
batch-start disk content), and write, recording the path on success. -/
def finalizeStep (env : Env) (acc : LoopState × List String × Bool) (rel : String) :
    LoopState × List String × Bool :=
  let st := acc.1
  let modified := acc.2.1
  let writeFailed := acc.2.2
  match env.getAbsPath rel with
  | none => (st, modified, true)
  | some abs =>
    match st.edited rel with
    | none => (st, modified, writeFailed)
    | some f =>
      let initialNorm := ((st.original rel).getD none).map normEol
      let needsWrite : Bool :=
        if rel ∈ st.created then true else decide (¬ (some f = initialNorm))
      if needsWrite then
        let out := writeFileContent st abs f
        if env.writeOk abs then
          ({ st with disk := fun p => if p = abs then some out else st.disk p },
            modified ++ [rel], writeFailed)
        else (st, modified, true)
      else (st, modified, writeFailed)

/-- The finalize loop: fold `finalizeStep` over the touched files, with
`write_failed` starting `false` and `modified_files_on_disk` empty. -/
def finalizePhase (env : Env) (st : LoopState) : LoopState × List String × Bool :=
  st.touched.foldl (finalizeStep env) (st, [], false)

/-- Embeds the lint loop of `apply_edits` (code_applier.py lines 276-300):
for every touched, resolvable path, lint the final in-memory content and
collect any message. -/
def lintPhase (env : Env) (st : LoopState) : List (String × String) :=
  st.touched.foldl
    (fun acc rel =>
      match env.getAbsPath rel with
      | none => acc
      | some abs =>
        match st.edited rel with
        | none => acc
        | some content =>
          match env.lintFor abs content with
          | some err => acc ++ [(rel, err)]
          | none => acc)
    []

/-- The batch-local state at the start of `apply_edits`: the caller's
tracked set, disk and prompt cursor, with all per-batch dictionaries
empty. -/
def initialLoopState (fnames : List String) (disk : String → Option String)
    (inputIdx : Nat) : LoopState :=
  { fnames := fnames, disk := disk, inputIdx := inputIdx,
    failed := [], touched := [], original := fun _ => none,
    edited := fun _ => none, created := [] }

/-- `CodeApplier.apply_edits`, full result: the `BatchResult` together
with the final external state.  `all_succeeded = not failed_edits_indices
and not write_failed` (code_applier.py line 302). -/
def applyEditsFull (env : Env) (st0 : LoopState) (edits : List Edit) :
    BatchResult × LoopState :=
  let stL := applyLoop env st0 0 edits
  let fin := finalizePhase env stL
  let lintErrors := lintPhase env fin.1
  let allSucceeded := stL.failed.isEmpty && !fin.2.2
  (⟨allSucceeded, stL.failed, fin.2.1, lintErrors⟩, fin.1)

/-- `CodeApplier.apply_edits`: the returned tuple. -/
def applyEdits (env : Env) (st0 : LoopState) (edits : List Edit) : BatchResult :=
  (applyEditsFull env st0 edits).1

/-! ### C1: the untracked-file confirmation gate -/

/-- A concrete environment for exercising the confirmation gate: every
filename resolves under the root `R/`, every prompt is answered "y",
writes and creates succeed, linters stay silent. -/
def c1Env : Env :=
  { getAbsPath := fun f => some ("R/" ++ f),
    getRelPath := fun a => a.drop 2,
    inputs := fun _ => "y",
    writeOk := fun _ => true,
    createOk := fun _ => true,
    lintFor := fun _ _ => none }

/-- Batch start for C1: nothing tracked, `R/a.py` on disk with content
"x". -/
def c1St : LoopState :=
  initialLoopState [] (fun p => if p = "R/a.py" then some "x" else none) 0


/-- The needs-write decision of the finalize loop for one touched path
(code_applier.py lines 250-257), as a function of the loop state: a file
marked created with in-memory content, or in-memory content differing
from the (normalised) disk content captured at batch start. -/
def needsWriteFlag (st : LoopState) (rel : String) : Bool :=
  match st.edited rel with
  | none => false
  | some f =>
    if rel ∈ st.created then true
    else decide (¬ (some f = ((st.original rel).getD none).map normEol))

/-- The finalize step fails for `rel`: the path no longer resolves, or
the file needs writing and the write fails. -/
def stepFailsB (env : Env) (st : LoopState) (rel : String) : Bool :=
  match env.getAbsPath rel with
  | none => true
  | some abs => needsWriteFlag st rel && !env.writeOk abs

/-- The finalize step records `rel` as modified: the path resolves, the
file needs writing and the write succeeds. -/
def stepWritesB (env : Env) (st : LoopState) (rel : String) : Bool :=
  match env.getAbsPath rel with
  | none => false
  | some abs => needsWriteFlag st rel && env.writeOk abs

/-- Specification-side reading of "no disk write during finalization
failed" for one touched path: the path still resolves at write time and,
if the file needs writing, the write succeeds. -/
def noWriteFailureAt (env : Env) (st : LoopState) (rel : String) : Prop :=
  ∃ abs, env.getAbsPath rel = some abs ∧
    (needsWriteFlag st rel = true → env.writeOk abs = true)

/-- The loop state after the per-edit phase of one `apply_edits` batch. -/
def loopStateOf (env : Env) (st0 : LoopState) (edits : List Edit) : LoopState :=
  applyLoop env st0 0 edits

/-- C3's membership condition as literally claimed, for one file: the
final in-memory content differs from the disk content captured at batch
start (for a file that existed), or the file did not exist and was newly
created *with content*; and the final write succeeded. -/
def c3ClaimRhs (captured : Option String) (finalContent : String)
    (writeSucceeded : Bool) : Prop :=
  ((∃ o, captured = some o ∧ finalContent ≠ o) ∨ (captured = none ∧ finalContent ≠ "")) ∧
  writeSucceeded = true

/-- Batch start for the C3 counterexample: `a.txt` tracked but absent
from disk. -/
def c3St : LoopState := initialLoopState ["a.txt"] (fun _ => none) 0

/-- The C3 counterexample batch: a single creation edit with an empty
replace block. -/
def c3Edits : List Edit := [("a.txt", "", "")]

/-- The outcome of the instruction at 0-based position `i` of a batch:
the loop state just before it is the loop run on the first `i`
instructions, and the instruction is applied with its 1-based index
`i + 1`.  (The default instruction is never used for `i` in range.) -/
def outcomeAt (env : Env) (st0 : LoopState) (edits : List Edit) (i : Nat) : EditOutcome :=
  (applyOneEdit env (applyLoop env st0 0 (edits.take i)) (i + 1)
    (edits.getD i ("", "", ""))).2

/-! ## App.process_user_input and App.run_one (src/tinycoder/app.py)

The LLM call, the edit parser and `apply_edits` are collaborators here;
their per-call results are supplied by a `TurnOracle` indexed by the call
number within one `run_one` (call 0 is the initial turn, call `n ≥ 1` the
`n`-th reflection turn).  Only the control flow of app.py lines 848-913
(`process_user_input` after the LLM response) and 1091-1123 (the
reflection loop of `run_one`) is embedded; history recording, git
commits and Docker automation are observability/VCS side effects outside
the claims. -/

/-- The mutable `AppState` fields driving the reflection control flow
(`reflected_message`, `lint_errors_found`). -/
structure AppPState where
  reflectedMessage : Option String
  lintErrorsFound : List (String × String)
  deriving DecidableEq, Repr

/-- Per-call collaborator results for one `run_one` invocation. -/
structure TurnOracle where
  /-- whether `_send_to_llm` returned a truthy response on call `n`. -/
  hasResponse : Nat → Bool
  /-- whether the parser reported requested files on call `n`. -/
  requestedFiles : Nat → Bool
  /-- `_handle_llm_file_requests` outcome on call `n`: `some m` models the
  `return True` paths (which set `reflected_message := m`), `none` the
  `return False` path. -/
  fileReqHandled : Nat → Option String
  /-- whether the parser returned a non-empty edit list on call `n`. -/
  edits : Nat → Bool
  /-- the tuple returned by `apply_edits` on call `n`. -/
  applyResult : Nat → BatchResult
  /-- the user's answer to the lint-fix confirmation on call `n`. -/
  lintFixAnswer : Nat → String

/-- Embeds the post-response section of `App.process_user_input` (app.py
lines 848-913) for call number `n`: handle file requests, apply edits
(recording lint errors, and setting `reflected_message` on failed
indices), then — when lint errors were found and no reflection is already
pending — show the lint-fix confirmation prompt (the code consults
`_prompt_for_confirmation` here without checking `non_interactive`) and
set the lint reflection on "y".  Returns the new state, whether the
lint-fix prompt was shown, and whether `apply_edits` was called.  The
reflection message contents are abbreviated tags; only their presence
drives control flow. -/
def processUserInput (o : TurnOracle) (mode : String) (n : Nat) (st : AppPState) :
    AppPState × Bool × Bool :=
  if o.hasResponse n = false then (st, false, false)
  else if o.requestedFiles n ∧ (o.fileReqHandled n).isSome then
    ({ st with reflectedMessage := o.fileReqHandled n }, false, false)
  else if st.reflectedMessage = none ∧ mode = "code" then
    let step1 : AppPState × Bool :=
      if o.edits n then
        let r := o.applyResult n
        let st' := { st with lintErrorsFound := r.lintErrors }
        if r.allSucceeded then (st', true)
        else if r.failedIndices ≠ [] then
          ({ st' with reflectedMessage := some "edit-failure reflection" }, true)
        else (st', true)
      else (st, false)
    let st1 := step1.1
    if st1.lintErrorsFound ≠ [] ∧ st1.reflectedMessage = none then
      let ans := o.lintFixAnswer n
      if pyLower ans = "y" then
        ({ st1 with reflectedMessage := some "lint reflection" }, true, step1.2)
      else (st1, true, step1.2)
    else (st1, false, step1.2)
  else (st, false, false)

/-- The aggregate observables of one `run_one` invocation. -/
structure RunOneResult where
  state : AppPState
  numReflections : Nat
  applyCalls : Nat
  lintPromptsShown : Nat
  deriving DecidableEq, Repr

/-- Embeds the reflection `while` loop of `App.run_one` (app.py lines
1100-1121): while interactive and a reflection message is pending, stop
(clearing the pending message) once the counter has reached
`max_reflections = 3`, otherwise clear the message, increment the counter
and process the reflected message as the next call.  The loop body runs
at most four times (three reflections plus the bound-break), so a fuel of
`4` is exact; the fuel-exhausted branch is unreachable from `runOne`. -/
def reflLoop (o : TurnOracle) (mode : String) (nonInteractive : Bool) :
    Nat → Nat → AppPState → Nat → Nat → RunOneResult
  | 0, num, st, calls, prompts => ⟨st, num, calls, prompts⟩
  | fuel + 1, num, st, calls, prompts =>
    if nonInteractive = false ∧ st.reflectedMessage ≠ none then
      if num ≥ 3 then ⟨{ st with reflectedMessage := none }, num, calls, prompts⟩
      else
        let st' := { st with reflectedMessage := none }
        let r := processUserInput o mode (num + 1) st'
        reflLoop o mode nonInteractive fuel (num + 1) r.1
          (calls + (if r.2.2 then 1 else 0)) (prompts + (if r.2.1 then 1 else 0))
    else ⟨st, num, calls, prompts⟩

/-- Embeds `App.run_one` from `init_before_message` on (app.py lines
1035, 1091-1123): reset the reflection state, process the user message
once, then run the bounded reflection loop (skipped entirely when
`non_interactive`). -/
def runOne (o : TurnOracle) (mode : String) (nonInteractive : Bool) : RunOneResult :=
  let st0 : AppPState := { reflectedMessage := none, lintErrorsFound := [] }
  let r0 := processUserInput o mode 0 st0
  reflLoop o mode nonInteractive 4 0 r0.1 (if r0.2.2 then 1 else 0) (if r0.2.1 then 1 else 0)

/-- Oracle for C6: the single apply call succeeds but reports a lint
error; the user is prompted (and answers "n"). -/
def c6Oracle : TurnOracle :=
  { hasResponse := fun _ => true,
    requestedFiles := fun _ => false,
    fileReqHandled := fun _ => none,
    edits := fun _ => true,
    applyResult := fun _ =>
      { allSucceeded := true, failedIndices := [], modifiedFiles := ["e.py"],
        lintErrors := [("e.py", "SyntaxError")] },
    lintFixAnswer := fun _ => "n" }

/-- Oracle for C7: every turn fails an edit, so every call requests
another reflection. -/
def c7Oracle : TurnOracle :=
  { hasResponse := fun _ => true,
    requestedFiles := fun _ => false,
    fileReqHandled := fun _ => none,
    edits := fun _ => true,
    applyResult := fun _ =>
      { allSucceeded := false, failedIndices := [1], modifiedFiles := [],
        lintErrors := [] },
    lintFixAnswer := fun _ => "n" }

/-! ## EditParser.parse (src/tinycoder/edit_parser.py)

The two regexes are compiled by hand.  `\s` is modelled by `isPySpace`
and `\w` by ASCII alphanumerics plus underscore (Python's default unicode
classes are wider; no claim depends on non-ASCII identifiers).  The
backtracking order of the Python engine is preserved: alternatives and
greedy quantifiers longest-first, lazy groups shortest-first, leftmost
match wins, and `finditer` resumes at each match end. -/

/-- `\w` or `.` — the characters an optional fence tag may consist of
(`(?:python|diff|[\w\.]+)?`; the literal alternatives are subsumed by the
maximal character run, since a shorter tag is always followed by another
word character and then fails against `\s*\n`). -/
def isWordDot (c : Char) : Bool := c.isAlphanum || c = '_' || c = '.'

/-- All positions (0-based, accumulated onto `i`) where `pat` occurs. -/
def findSubAll (pat : List Char) : List Char → Nat → List Nat
  | [], i => if pat = [] then [i] else []
  | c :: t, i => (if pat.isPrefixOf (c :: t) then [i] else []) ++ findSubAll pat t (i + 1)

/-- Positions of newline characters, accumulated onto `i`. -/
def nlPositions : List Char → Nat → List Nat
  | [], _ => []
  | c :: t, i => if c = '\n' then i :: nlPositions t (i + 1) else nlPositions t (i + 1)

/-- Matching `\s*\n([\s\S]*?)term` against `after`, trying the candidate
positions `js` for the `\n` (the newline offsets inside the leading
whitespace run, largest first — the greedy `\s*`), and for each taking
the lazy group up to the first occurrence of `term`.  Returns the group
and the offset just past `term`. -/
def trySplits (after term : List Char) : List Nat → Option (List Char × Nat)
  | [] => none
  | j :: rest =>
    match findSub term (after.drop (j + 1)) with
    | some t => some ((after.drop (j + 1)).take t, (j + 1) + t + term.length)
    | none => trySplits after term rest

/-- `\s*\n([\s\S]*?)term` with full backtracking over the `\s*` split. -/
def wsNlLazy (after term : List Char) : Option (List Char × Nat) :=
  trySplits after term ((nlPositions (after.takeWhile isPySpace) 0).reverse)

/-- Attempt `EditParser.code_block_pattern` at position `p` of `s`:
three backticks, an optional tag, `\s*\n`, the lazy content group, and a
newline-plus-three-backticks terminator.  Returns the content group and
the absolute match end. -/
def matchCodeBlockAt (s : List Char) (p : Nat) : Option (List Char × Nat) :=
  let rest := s.drop p
  if ['`', '`', '`'].isPrefixOf rest then
    let afterTicks := rest.drop 3
    let tagLen := (afterTicks.takeWhile isWordDot).length
    match wsNlLazy (afterTicks.drop tagLen) ['\n', '`', '`', '`'] with
    | some (content, endOff) => some (content, p + 3 + tagLen + endOff)
    | none => none
  else none

/-- `finditer` for the code-block pattern: scan left to right, resuming
after each match (every match spans at least one character).  Fuel
bounded by the input length plus one. -/
def codeBlockScan (s : List Char) : Nat → Nat → List (Nat × List Char × Nat)
  | 0, _ => []
  | fuel + 1, p =>
    if s.length < p then []
    else
      match matchCodeBlockAt s p with
      | some (c, e) => (p, c, e) :: codeBlockScan s fuel (if p < e then e else p + 1)
      | none => codeBlockScan s fuel (p + 1)

/-- All code-block matches of `EditParser.code_block_pattern` in `s`:
`(start, content group, end)` triples in order. -/
def codeBlockMatches (s : List Char) : List (Nat × List Char × Nat) :=
  codeBlockScan s (s.length + 1) 0

/-- The literal `<<<<<<< SEARCH` (14 characters). -/
def searchMarker : List Char := ['<', '<', '<', '<', '<', '<', '<', ' ', 'S', 'E', 'A', 'R', 'C', 'H']

/-- The literal `\n=======` terminating the lazy search group. -/
def sepTerm : List Char := ['\n', '=', '=', '=', '=', '=', '=', '=']

/-- The literal newline-plus-`>>>>>>> REPLACE` terminating the lazy
replace group. -/
def replTerm : List Char :=
  ['\n', '>', '>', '>', '>', '>', '>', '>', ' ', 'R', 'E', 'P', 'L', 'A', 'C', 'E']

/-- For a fixed start of the search group (`after1s`), try each candidate
separator occurrence (lazy group one, shortest first), and behind it
match `\s*\n([\s\S]*?)` up to the replace terminator.  Returns both
groups and the consumed length. -/
def tryEditSeps (after1s : List Char) : List Nat → Option (List Char × List Char × Nat)
  | [] => none
  | t :: rest =>
    match wsNlLazy ((after1s.drop t).drop sepTerm.length) replTerm with
    | some (g2, off2) => some (after1s.take t, g2, t + sepTerm.length + off2)
    | none => tryEditSeps after1s rest

/-- Backtracking over the `\s*\n` split after the SEARCH marker (largest
first), then over the separator occurrences. -/
def tryEditSplits (after1 : List Char) : List Nat → Option (List Char × List Char × Nat)
  | [] => none
  | j :: rest =>
    match tryEditSeps (after1.drop (j + 1)) (findSubAll sepTerm (after1.drop (j + 1)) 0) with
    | some (g1, g2, off) => some (g1, g2, (j + 1) + off)
    | none => tryEditSplits after1 rest

/-- Attempt `EditParser.edit_block_pattern` at position `p` of `b`:
the SEARCH marker, `\s*\n`, lazy search group, `\n=======`, `\s*\n`,
lazy replace group, `\n>>>>>>> REPLACE`.  Returns the two groups and the
absolute match end. -/
def matchEditBlockAt (b : List Char) (p : Nat) : Option (List Char × List Char × Nat) :=
  if searchMarker.isPrefixOf (b.drop p) then
    let after1 := (b.drop p).drop searchMarker.length
    match tryEditSplits after1 ((nlPositions (after1.takeWhile isPySpace) 0).reverse) with
    | some (g1, g2, off) => some (g1, g2, p + searchMarker.length + off)
    | none => none
  else none

/-- `finditer` for the edit-block pattern over a fenced block's content:
the `(search, replace)` group pairs in order. -/
def editBlockScan (b : List Char) : Nat → Nat → List (List Char × List Char)
  | 0, _ => []
  | fuel + 1, p =>
    if b.length < p then []
    else
      match matchEditBlockAt b p with
      | some (g1, g2, e) => (g1, g2) :: editBlockScan b fuel (if p < e then e else p + 1)
      | none => editBlockScan b fuel (p + 1)

/-- `edit_block_pattern.finditer(content)` as a list. -/
def editBlocksIn (b : List Char) : List (List Char × List Char) :=
  editBlockScan b (b.length + 1) 0

/-- `edit_block_pattern.search(content)` as a boolean. -/
def hasEditBlock (b : List Char) : Bool := editBlocksIn b ≠ []

/-- Python `s.split("\n", 1)` (maxsplit one). -/
def pySplitOnce (l : List Char) : List (List Char) :=
  match findSub ['\n'] l with
  | some i => [l.take i, l.drop (i + 1)]
  | none => [l]

/-- `response.rfind("\n", 0, start) + 1` (with `-1 + 1 = 0` when there is
no newline before `start`): the start of the line containing `start`. -/
def lineStartBefore (s : List Char) (start : Nat) : Nat :=
  match (nlPositions (s.take start) 0).getLast? with
  | some i => i + 1
  | none => 0

/-- The filename-shape test of `EditParser.parse`: non-empty, not the
SEARCH marker / a bare language tag, and containing a slash, backslash,
or dot. -/
def looksLikeFilename (l : List Char) (checkMarker : Bool) : Bool :=
  decide (l ≠ []) &&
  (!checkMarker || !(searchMarker.isPrefixOf l)) &&
  decide (l ≠ ['p', 'y', 't', 'h', 'o', 'n']) && decide (l ≠ ['d', 'i', 'f', 'f']) &&
  (l.contains '/' || l.contains '\\' || l.contains '.')

/-- String order on code points, for `sorted(current_fnames)`. -/
def strLe (a b : String) : Bool := a = b || decide (a < b)

/-- Insertion into a sorted list. -/
def insertSorted (x : String) : List String → List String
  | [] => [x]
  | y :: t => if strLe x y then x :: y :: t else y :: insertSorted x t

/-- `sorted(current_fnames)` (insertion sort; only the head is used). -/
def sortFnames : List String → List String
  | [] => []
  | x :: t => insertSorted x (sortFnames t)

/-- One iteration of the block loop of `EditParser.parse` (edit_parser.py
lines 38-118) for a code-block match `(start, contentFull, endPos)`:
resolve the filename (first line inside the fence; else last non-blank
line before the fence, not reaching back past `lastPos`; else the
lexicographically smallest tracked file; else drop the block), and emit
one raw edit per inner match of the chosen content.  Every Python
sequence indexing (`lines[0]`, `lines[1]`, `lines_before[-1]`,
`sorted(...)[0]`) is threaded through `Option`: `none` would be an
uncaught `IndexError`.  Returns the emitted raw edits and the new
`last_pos`. -/
def resolveCase1 (contentFull firstLineInside : List Char)
    (inner0 : List (List Char × List Char)) :
    Option (Option (List Char) × List (List Char × List Char)) :=
  if looksLikeFilename firstLineInside true then
    if 1 < (pySplitOnce contentFull).length then
      match (pySplitOnce contentFull).get? 1 with
      | none => none
      | some l1 =>
        if hasEditBlock l1 then some (some firstLineInside, editBlocksIn l1)
        else some (none, inner0)
    else some (none, inner0)
  else some (none, inner0)

def resolveCase2 (response : List Char) (lastPos start : Nat) (contentFull : List Char)
    (fname1 : Option (List Char)) (inner1 : List (List Char × List Char)) :
    Option (Option (List Char) × List (List Char × List Char)) :=
  match fname1 with
  | some f => some (some f, inner1)
  | none =>
    let searchStart0 := lineStartBefore response start
    let searchStart := if searchStart0 < lastPos then lastPos else searchStart0
    let preceding := (response.take start).drop searchStart
    let linesBefore := splitOnChar '\n' (pyStrip preceding)
    if linesBefore ≠ [] then
      match linesBefore.getLast? with
      | none => none
      | some lb =>
        let lastLineBefore := pyStrip lb
        if looksLikeFilename lastLineBefore false then
          some (some lastLineBefore, editBlocksIn contentFull)
        else some (none, inner1)
    else some (none, inner1)

def processBlock (response : List Char) (fnames : List String) (lastPos : Nat)
    (start : Nat) (contentFull : List Char) (endPos : Nat) :
    Option (List (List Char × List Char × List Char) × Nat) :=
  let inner0 := editBlocksIn contentFull
  if inner0 = [] then some ([], lastPos)
  else
    match (pySplitOnce contentFull).head? with
    | none => none
    | some l0 =>
      match resolveCase1 contentFull (pyStrip l0) inner0 with
      | none => none
      | some (fname1, inner1) =>
        match resolveCase2 response lastPos start contentFull fname1 inner1 with
        | none => none
        | some (fname2, inner2) =>
          match fname2 with
          | some f => some (inner2.map (fun g => (f, g.1, g.2)), endPos)
          | none =>
            if fnames ≠ [] then
              match (sortFnames fnames).head? with
              | none => none
              | some f0 => some ((editBlocksIn contentFull).map
                  (fun g => (f0.data, g.1, g.2)), endPos)
            else some ([], lastPos)

/-- The block loop of `EditParser.parse`, threading `last_pos`. -/
def parseGo (response : List Char) (fnames : List String) :
    List (Nat × List Char × Nat) → Nat →
    Option (List (List Char × List Char × List Char))
  | [], _ => some []
  | (start, content, endPos) :: rest, lastPos =>
    match processBlock response fnames lastPos start content endPos with
    | none => none
    | some (es, lastPos') =>
      match parseGo response fnames rest lastPos' with
      | none => none
      | some tail => some (es ++ tail)

/-- The post-processing of `EditParser.parse` (edit_parser.py lines
122-132): normalise line endings, coerce a whitespace-only replace block
to the empty string, strip the filename. -/
def postProcessEdit (e : List Char × List Char × List Char) : Edit :=
  let sb := normEolList e.2.1
  let rb0 := normEolList e.2.2
  let rb := if pyStrip rb0 = [] then [] else rb0
  (⟨pyStrip e.1⟩, ⟨sb⟩, ⟨rb⟩)

/-- `EditParser.parse` with every possible `IndexError` surfaced as
`none`. -/
def parseOpt (response : String) (fnames : List String) : Option (List Edit) :=
  match parseGo response.data fnames (codeBlockMatches response.data) 0 with
  | none => none
  | some raw => some (raw.map postProcessEdit)

/-! ## Theorems -/

theorem splitOnChar_ne_nil (sep : Char) (l : List Char) : splitOnChar sep l ≠ [] := by
  induction l with
  | nil => simp [splitOnChar]
  | cons c t ih =>
    simp only [splitOnChar]
    split
    · simp
    · cases h : splitOnChar sep t <;> simp

/-! ### Brace-scan characterisation lemmas -/

theorem braceBalance_take_succ (c : Char) (t : List Char) (k : Nat) :
    braceBalance ((c :: t).take (k + 1)) = charDelta c + braceBalance (t.take k) := by
  simp [List.take_succ_cons, braceBalance]

theorem braceFirstNeg_some_of_firstNeg :
    ∀ (l : List Char) (b : Int) (i0 k : Nat),
      b + braceBalance (l.take (k + 1)) < 0 →
      (∀ m, m ≤ k → 0 ≤ b + braceBalance (l.take m)) →
      braceFirstNeg l b i0 = some (i0 + k) := by
  intro l
  induction l with
  | nil =>
    intro b i0 k hneg hmin
    exfalso
    have h0 := hmin 0 (Nat.zero_le k)
    simp [braceBalance] at h0 hneg
    omega
  | cons c t ih =>
    intro b i0 k hneg hmin
    simp only [braceFirstNeg]
    by_cases hlt : b + charDelta c < 0
    · have hk : k = 0 := by
        by_contra hk0
        have h1 := hmin 1 (Nat.one_le_iff_ne_zero.mpr hk0)
        rw [braceBalance_take_succ] at h1
        simp [braceBalance] at h1
        omega
      subst hk
      simp [hlt]
    · have hk : k ≠ 0 := by
        intro hk0
        subst hk0
        rw [braceBalance_take_succ] at hneg
        simp [braceBalance] at hneg
        omega
      obtain ⟨k', rfl⟩ := Nat.exists_eq_succ_of_ne_zero hk
      rw [if_neg hlt]
      have := ih (b + charDelta c) (i0 + 1) k'
        (by rw [braceBalance_take_succ] at hneg; omega)
        (by
          intro m hm
          have := hmin (m + 1) (by omega)
          rw [braceBalance_take_succ] at this
          omega)
      rw [this]
      congr 1
      omega

theorem braceFirstNeg_none_of_nonneg :
    ∀ (l : List Char) (b : Int) (i0 : Nat),
      (∀ m, 0 ≤ b + braceBalance (l.take m)) →
      braceFirstNeg l b i0 = none := by
  intro l
  induction l with
  | nil => intro b i0 _; simp [braceFirstNeg]
  | cons c t ih =>
    intro b i0 hmin
    simp only [braceFirstNeg]
    have h1 := hmin 1
    rw [braceBalance_take_succ] at h1
    simp [braceBalance] at h1
    rw [if_neg (by omega)]
    apply ih
    intro m
    have := hmin (m + 1)
    rw [braceBalance_take_succ] at this
    omega

theorem braceBalance_take_length (l : List Char) :
    braceBalance (l.take l.length) = braceBalance l := by
  simp

/-- **C9.** For every CSS input: if the running brace count over the
comment-stripped content first goes negative at index `i`, validation
stops immediately with exactly the single unexpected-closing-brace error
reporting the 1-based line of index `i` and the rule-structure check is
skipped; if the count never goes negative but ends positive, validation
reports the unmatched-opening-brace error first, followed by the errors of
the rule-structure check, which still runs. -/
theorem c9_css_brace_balance (css : String) :
    (∀ i : Nat,
      braceBalance ((contentNoComments css).take (i + 1)) < 0 →
      (∀ k, k ≤ i → 0 ≤ braceBalance ((contentNoComments css).take k)) →
      cssValidate css =
        (false, [CssError.unexpectedClose (((contentNoComments css).take (i + 1)).count '\n' + 1)]))
    ∧
    ((∀ k, 0 ≤ braceBalance ((contentNoComments css).take k)) →
      0 < braceBalance (contentNoComments css) →
      cssValidate css =
        (false, CssError.unmatchedOpen :: checkRuleStructure (contentNoComments css))) := by
  constructor
  · intro i hneg hmin
    have hfn : braceFirstNeg (contentNoComments css) 0 0 = some i := by
      have := braceFirstNeg_some_of_firstNeg (contentNoComments css) 0 0 i
        (by simpa using hneg) (by intro m hm; simpa using hmin m hm)
      simpa using this
    simp only [cssValidate, checkBraceBalance, hfn, lineOfIndex]
    rfl
  · intro hmin hpos
    have hfn : braceFirstNeg (contentNoComments css) 0 0 = none := by
      apply braceFirstNeg_none_of_nonneg
      intro m
      simpa using hmin m
    simp only [cssValidate, checkBraceBalance, hfn]
    rw [if_pos hpos]
    simp

theorem braceBalance_take_nonneg_of_ball (l : List Char)
    (h : ∀ k, k ≤ l.length → 0 ≤ braceBalance (l.take k)) :
    ∀ k, 0 ≤ braceBalance (l.take k) := by
  intro k
  rcases le_or_lt k l.length with hk | hk
  · exact h k hk
  · rw [List.take_of_length_le (le_of_lt hk)]
    have := h l.length le_rfl
    simpa using this

/-- Witness for C9: `"a}"` hits an unexpected closing brace at index 1
(line 1); `"p { color: red;"` has an unmatched opening brace and its
declaration still gets rule-checked (no declaration errors here, so the
error list is exactly the unmatched-open report). -/
theorem c9_css_brace_balance_witness :
    cssValidate "a\x7d" = (false, [CssError.unexpectedClose 1]) ∧
    cssValidate "p \x7b color: red;" = (false, [CssError.unmatchedOpen]) := by
  constructor
  · exact (c9_css_brace_balance "a\x7d").1 1 (by decide) (by decide)
  · have h := (c9_css_brace_balance "p \x7b color: red;").2
      (braceBalance_take_nonneg_of_ball _ (by decide))
      (by decide)
    rw [h]
    decide

/-- **C10.** Constructing `CssValidator` with neither argument always
raises `ValueError`, and therefore constructing a `CodeApplier` — whose
`__init__` calls `CssValidator()` with no arguments — always raises
`ValueError` as well, whatever the filesystem does. -/
theorem c10_code_applier_init_raises (readF : String → Except PyError String) :
    cssValidatorInit readF none none =
      .error (.valueError "Provide either css_content or file_path, not both or neither.") ∧
    codeApplierInit readF =
      .error (.valueError "Provide either css_content or file_path, not both or neither.") := by
  constructor
  · rfl
  · rfl

theorem addFile_returns_false (env : Env) (st : LoopState) (fname : String) :
    (addFile env st fname).2 = false := by
  unfold addFile
  cases env.getAbsPath fname with
  | none => rfl
  | some abs =>
    dsimp only
    repeat' split
    all_goals rfl

/-- **C1 (code bug).** Evaluating `apply_edits` on a single edit to the
untracked existing file `a.py` with the user *accepting* the
confirmation: the file is added to the tracked set, but the edit is
nevertheless recorded as failed (index 1) and nothing is modified,
because `apply_edits` tests the return value of `FileManager.add_file`
(`if not self.file_manager.add_file(fname)`) and that Python function
returns `None` on every path — even though app.py line 1074 documents it
as "add_file returns True on success" and the `apply_edits` docstring
lists only *declining* the confirmation as a failure cause. -/
theorem c1_accepted_confirmation_still_fails :
    applyEdits c1Env c1St [("a.py", "x", "y")] =
      { allSucceeded := false, failedIndices := [1], modifiedFiles := [], lintErrors := [] } ∧
    (applyEditsFull c1Env c1St [("a.py", "x", "y")]).2.fnames = ["a.py"] := by
  constructor
  · rfl
  · rfl

/-! ### C5: substitution replaces exactly the first occurrence -/

theorem listContainsSub_iff (pat l : List Char) :
    listContainsSub pat l = true ↔ ∃ pre post, l = pre ++ pat ++ post := by
  induction l with
  | nil =>
    simp only [listContainsSub, List.isPrefixOf_iff_prefix]
    constructor
    · intro h
      exact ⟨[], [], by simpa using (List.prefix_nil.mp h).symm⟩
    · rintro ⟨pre, post, h⟩
      have : pat = [] := by
        rcases List.append_eq_nil.mp h.symm with ⟨h1, _⟩
        exact (List.append_eq_nil.mp h1).2
      simp [this]
  | cons c t ih =>
    simp only [listContainsSub, Bool.or_eq_true, List.isPrefixOf_iff_prefix, ih]
    constructor
    · rintro (⟨post, hp⟩ | ⟨pre, post, hp⟩)
      · exact ⟨[], post, by simp [hp.symm]⟩
      · exact ⟨c :: pre, post, by simp [hp]⟩
    · rintro ⟨pre, post, hp⟩
      cases pre with
      | nil => exact Or.inl ⟨post, by simpa using hp.symm⟩
      | cons c' pre' =>
        right
        have hp' : c :: t = c' :: (pre' ++ pat ++ post) := by simpa using hp
        exact ⟨pre', post, (List.cons.inj hp').2⟩

theorem firstReplace_spec (pat new : List Char) (hpat : pat ≠ []) :
    ∀ l : List Char, listContainsSub pat l = true →
      ∃ pre post,
        l = pre ++ pat ++ post ∧
        (∀ pre' post', l = pre' ++ pat ++ post' → pre.length ≤ pre'.length) ∧
        firstReplace pat new l = pre ++ new ++ post := by
  intro l
  induction l with
  | nil =>
    intro h
    rw [listContainsSub_iff] at h
    obtain ⟨pre, post, hp⟩ := h
    exfalso
    rcases List.append_eq_nil.mp hp.symm with ⟨h1, _⟩
    exact hpat (List.append_eq_nil.mp h1).2
  | cons c t ih =>
    intro h
    by_cases hpre : pat.isPrefixOf (c :: t)
    · obtain ⟨post, hpost⟩ := List.isPrefixOf_iff_prefix.mp hpre
      refine ⟨[], post, by simp [hpost.symm], fun _ _ _ => Nat.zero_le _, ?_⟩
      simp only [firstReplace, if_pos hpre]
      rw [← hpost, List.drop_left]
      simp
    · have hc : listContainsSub pat t = true := by
        have := h
        simp only [listContainsSub, Bool.or_eq_true] at this
        rcases this with h' | h'
        · exact absurd h' hpre
        · exact h'
      obtain ⟨pre, post, heq, hmin, hrep⟩ := ih hc
      refine ⟨c :: pre, post, by simp [heq], ?_, ?_⟩
      · intro pre' post' hp
        cases pre' with
        | nil =>
          exfalso
          apply hpre
          rw [List.isPrefixOf_iff_prefix]
          exact ⟨post', by simpa using hp.symm⟩
        | cons c' pre'' =>
          have hp' : c :: t = c' :: (pre'' ++ pat ++ post') := by simpa using hp
          have := hmin pre'' post' (List.cons.inj hp').2
          simp only [List.length_cons]
          omega
      · rw [firstReplace.eq_def]
        simp only [if_neg hpre]
        rw [hrep]
        simp

/-- **C5.** For every edit whose normalised search text is non-empty and
occurs verbatim in the file's current in-memory content, the in-memory
case analysis of `apply_edits` (CASE 3, `current.replace(search, replace,
1)`) replaces exactly the first occurrence of the search text — the
decomposition below has the shortest possible prefix — and leaves
everything after that occurrence (hence all later occurrences)
unchanged. -/
theorem c5_substitute_first_occurrence (current sb rb : String)
    (hne : sb ≠ "") (hocc : listContainsSub sb.data current.data = true) :
    ∃ pre post : List Char,
      current.data = pre ++ sb.data ++ post ∧
      (∀ pre' post', current.data = pre' ++ sb.data ++ post' → pre.length ≤ pre'.length) ∧
      computeNewContent current sb rb = some ⟨pre ++ rb.data ++ post⟩ := by
  have hsbd : sb.data ≠ [] := by
    intro h
    apply hne
    cases sb
    simpa [String.ext_iff] using h
  have hcur : current ≠ "" := by
    intro h
    subst h
    rw [listContainsSub_iff] at hocc
    obtain ⟨pre, post, hp⟩ := hocc
    have : ("" : String).data = [] := rfl
    rw [this] at hp
    rcases List.append_eq_nil.mp hp.symm with ⟨h1, _⟩
    exact hsbd (List.append_eq_nil.mp h1).2
  obtain ⟨pre, post, heq, hmin, hrep⟩ := firstReplace_spec sb.data rb.data hsbd current.data hocc
  refine ⟨pre, post, heq, hmin, ?_⟩
  unfold computeNewContent
  rw [if_neg (by simp [hcur]), if_neg hne, if_pos hocc, hrep]

/-- Witness for C5: in `"aXbXc"` the search `"X"` occurs twice; the edit
logic rewrites only the first occurrence, producing `"aYYbXc"` with the
second `"X"` untouched. -/
theorem c5_substitute_first_occurrence_witness :
    ("X" ≠ "" ∧ listContainsSub "X".data "aXbXc".data = true) ∧
    ∃ pre post : List Char,
      "aXbXc".data = pre ++ "X".data ++ post ∧
      (∀ pre' post', "aXbXc".data = pre' ++ "X".data ++ post' → pre.length ≤ pre'.length) ∧
      computeNewContent "aXbXc" "X" "YY" = some ⟨pre ++ "YY".data ++ post⟩ :=
  ⟨⟨by decide, by decide⟩,
    c5_substitute_first_occurrence "aXbXc" "X" "YY" (by decide) (by decide)⟩

/-! ### Finalize-phase characterisation (towards C2 and C3) -/

theorem needsWriteFlag_congr {st1 st2 : LoopState} (rel : String)
    (he : st1.edited = st2.edited) (ho : st1.original = st2.original)
    (hc : st1.created = st2.created) :
    needsWriteFlag st1 rel = needsWriteFlag st2 rel := by
  unfold needsWriteFlag
  rw [he, ho, hc]

theorem finalizeStep_spec (env : Env) (st : LoopState) (m : List String) (w : Bool)
    (rel : String) :
    (finalizeStep env (st, m, w) rel).1.edited = st.edited ∧
    (finalizeStep env (st, m, w) rel).1.original = st.original ∧
    (finalizeStep env (st, m, w) rel).1.created = st.created ∧
    (finalizeStep env (st, m, w) rel).2.1 =
      m ++ (if stepWritesB env st rel then [rel] else []) ∧
    (finalizeStep env (st, m, w) rel).2.2 = (w || stepFailsB env st rel) := by
  unfold finalizeStep stepWritesB stepFailsB needsWriteFlag
  cases hab : env.getAbsPath rel with
  | none => simp
  | some abs =>
    dsimp only
    cases hed : st.edited rel with
    | none => simp
    | some f =>
      dsimp only
      by_cases hcr : rel ∈ st.created
      · rw [if_pos hcr]
        cases hw : env.writeOk abs <;> simp [hw]
      · rw [if_neg hcr]
        by_cases heq : some f = ((st.original rel).getD none).map normEol
        · simp [heq]
        · cases hw : env.writeOk abs <;> simp [heq, hw]

theorem finalizePhase_fold (env : Env) :
    ∀ (l : List String) (st : LoopState) (m : List String) (w : Bool),
      (l.foldl (finalizeStep env) (st, m, w)).2.2 = (w || l.any (stepFailsB env st)) ∧
      (l.foldl (finalizeStep env) (st, m, w)).2.1 = m ++ l.filter (stepWritesB env st) := by
  intro l
  induction l with
  | nil => intro st m w; simp
  | cons rel rest ih =>
    intro st m w
    obtain ⟨he, ho, hc, hm, hw⟩ := finalizeStep_spec env st m w rel
    have hstep : finalizeStep env (st, m, w) rel =
        ((finalizeStep env (st, m, w) rel).1, (finalizeStep env (st, m, w) rel).2.1,
          (finalizeStep env (st, m, w) rel).2.2) := rfl
    have hIH := ih (finalizeStep env (st, m, w) rel).1
      (finalizeStep env (st, m, w) rel).2.1 (finalizeStep env (st, m, w) rel).2.2
    have hfails : stepFailsB env (finalizeStep env (st, m, w) rel).1 = stepFailsB env st := by
      funext r
      unfold stepFailsB
      rw [needsWriteFlag_congr r he ho hc]
    have hwrites : stepWritesB env (finalizeStep env (st, m, w) rel).1 = stepWritesB env st := by
      funext r
      unfold stepWritesB
      rw [needsWriteFlag_congr r he ho hc]
    rw [hfails, hwrites] at hIH
    constructor
    · rw [List.foldl_cons, hstep, hIH.1, hw, List.any_cons]
      cases w <;> cases hsf : stepFailsB env st rel <;> simp [hsf]
    · rw [List.foldl_cons, hstep, hIH.2, hm, List.filter_cons]
      cases hsw : stepWritesB env st rel <;> simp [hsw]

theorem stepFailsB_false_iff (env : Env) (st : LoopState) (rel : String) :
    stepFailsB env st rel = false ↔ noWriteFailureAt env st rel := by
  unfold stepFailsB noWriteFailureAt
  cases hab : env.getAbsPath rel with
  | none => simp
  | some abs =>
    simp only [Bool.and_eq_false_iff, Option.some.injEq]
    constructor
    · rintro (hnw | hok)
      · exact ⟨abs, rfl, fun h => by rw [h] at hnw; cases hnw⟩
      · exact ⟨abs, rfl, fun _ => by
          cases h : env.writeOk abs
          · rw [h] at hok; cases hok
          · rfl⟩
    · rintro ⟨abs', rfl, himp⟩
      cases hnw : needsWriteFlag st rel
      · exact Or.inl rfl
      · right
        rw [himp hnw]
        rfl

/-- **C2.** For every batch (any environment, starting state and edit
list), the `all_succeeded` flag returned by `apply_edits` is `true` iff
the returned failed-indices list is empty and no disk write during
finalization failed — including failure to re-resolve a touched path at
write time. -/
theorem c2_all_succeeded_iff (env : Env) (st0 : LoopState) (edits : List Edit) :
    (applyEdits env st0 edits).allSucceeded = true ↔
      ((applyEdits env st0 edits).failedIndices = [] ∧
        ∀ rel ∈ (loopStateOf env st0 edits).touched,
          noWriteFailureAt env (loopStateOf env st0 edits) rel) := by
  unfold applyEdits applyEditsFull finalizePhase loopStateOf
  dsimp only
  rw [(finalizePhase_fold env (applyLoop env st0 0 edits).touched
        (applyLoop env st0 0 edits) [] false).1]
  simp only [Bool.false_or, Bool.and_eq_true, Bool.not_eq_true', List.any_eq_false,
    List.isEmpty_iff]
  constructor
  · rintro ⟨hfa, hany⟩
    exact ⟨hfa, fun rel hrel =>
      (stepFailsB_false_iff env _ rel).mp (Bool.eq_false_iff.mpr (hany rel hrel))⟩
  · rintro ⟨hfa, hall⟩
    exact ⟨hfa, fun rel hrel =>
      Bool.eq_false_iff.mp ((stepFailsB_false_iff env _ rel).mpr (hall rel hrel))⟩

/-! ### The created-files invariant and C3 -/

theorem addFile_fields (env : Env) (st : LoopState) (f : String) :
    (addFile env st f).1.failed = st.failed ∧
    (addFile env st f).1.touched = st.touched ∧
    (addFile env st f).1.original = st.original ∧
    (addFile env st f).1.edited = st.edited ∧
    (addFile env st f).1.created = st.created := by
  unfold addFile
  cases env.getAbsPath f with
  | none => exact ⟨rfl, rfl, rfl, rfl, rfl⟩
  | some abs =>
    dsimp only
    repeat' split
    all_goals exact ⟨rfl, rfl, rfl, rfl, rfl⟩

theorem gateStep_fields (env : Env) (st : LoopState) (f rel : String) :
    (gateStep env st f rel).1.failed = st.failed ∧
    (gateStep env st f rel).1.touched = st.touched ∧
    (gateStep env st f rel).1.original = st.original ∧
    (gateStep env st f rel).1.edited = st.edited ∧
    (gateStep env st f rel).1.created = st.created := by
  unfold gateStep
  split
  · exact ⟨rfl, rfl, rfl, rfl, rfl⟩
  · dsimp only
    split
    · exact addFile_fields env _ f
    · exact ⟨rfl, rfl, rfl, rfl, rfl⟩

theorem markTouched_inv (st : LoopState) (rel : String)
    (h : ∀ r ∈ st.created, st.original r = some none) :
    ∀ r ∈ (markTouched st rel).created, (markTouched st rel).original r = some none := by
  simpa [markTouched] using h

theorem readInitStep_inv (st : LoopState) (rel abs : String)
    (h : ∀ r ∈ st.created, st.original r = some none) :
    ∀ r ∈ (readInitStep st rel abs).created,
      (readInitStep st rel abs).original r = some none := by
  unfold readInitStep
  split
  · rename_i hnone
    intro r hr
    dsimp only at hr ⊢
    by_cases hreq : r = rel
    · subst hreq
      rw [Option.isNone_iff_eq_none] at hnone
      rw [h r hr] at hnone
      cases hnone
    · rw [if_neg hreq]
      exact h r hr
  · exact h

theorem readInitStep_original_isSome (st : LoopState) (rel abs : String) :
    ((readInitStep st rel abs).original rel).isSome = true := by
  unfold readInitStep
  split
  · simp
  · rename_i hnone
    cases hor : st.original rel
    · rw [hor] at hnone
      simp at hnone
    · simp

theorem markCreated_inv (st : LoopState) (rel : String) (current sb : String)
    (h : ∀ r ∈ st.created, st.original r = some none)
    (hsome : (st.original rel).isSome = true) :
    ∀ r ∈ (markCreated st rel current sb).created,
      (markCreated st rel current sb).original r = some none := by
  unfold markCreated
  split
  · rename_i hcond
    intro r hr
    dsimp only at hr ⊢
    rw [List.mem_append] at hr
    rcases hr with hr | hr
    · exact h r hr
    · simp only [List.mem_singleton] at hr
      subst hr
      obtain ⟨x, hx⟩ := Option.isSome_iff_exists.mp hsome
      obtain ⟨-, -, hns, -⟩ := hcond
      rw [hx] at hns ⊢
      simp only [Option.getD_some] at hns
      cases x
      · rfl
      · simp at hns
  · exact h

theorem applyOneEdit_createdInv (env : Env) (st : LoopState) (idx : Nat) (e : Edit)
    (h : ∀ r ∈ st.created, st.original r = some none) :
    ∀ r ∈ (applyOneEdit env st idx e).1.created,
      (applyOneEdit env st idx e).1.original r = some none := by
  unfold applyOneEdit
  cases hab : env.getAbsPath e.1 with
  | none => simpa [failEdit] using h
  | some abs =>
    dsimp only
    split
    · simpa [failEdit] using h
    · obtain ⟨hf, ht, ho, he, hc⟩ := gateStep_fields env st e.1 (env.getRelPath abs)
      have hinv1 : ∀ r ∈ (gateStep env st e.1 (env.getRelPath abs)).1.created,
          (gateStep env st e.1 (env.getRelPath abs)).1.original r = some none := by
        intro r hr
        rw [ho]
        exact h r (hc ▸ hr)
      split
      · simpa [failEdit] using hinv1
      · set st3 := readInitStep
          (markTouched (gateStep env st e.1 (env.getRelPath abs)).1 (env.getRelPath abs))
          (env.getRelPath abs) abs with hst3
        have hinv3 : ∀ r ∈ st3.created, st3.original r = some none :=
          readInitStep_inv _ _ _ (markTouched_inv _ _ hinv1)
        have hsome3 : (st3.original (env.getRelPath abs)).isSome = true :=
          readInitStep_original_isSome _ _ _
        split
        · simpa [failEdit] using hinv3
        · have hinv4 := markCreated_inv st3 (env.getRelPath abs)
            ((st3.edited (env.getRelPath abs)).getD "") (normEol e.2.1) hinv3 hsome3
          split
          · simpa using hinv4
          · exact hinv4

theorem applyLoop_createdInv (env : Env) :
    ∀ (l : List Edit) (st : LoopState) (i : Nat),
      (∀ r ∈ st.created, st.original r = some none) →
      ∀ r ∈ (applyLoop env st i l).created, (applyLoop env st i l).original r = some none := by
  intro l
  induction l with
  | nil => intro st i h; simpa [applyLoop] using h
  | cons e rest ih =>
    intro st i h
    rw [applyLoop]
    exact ih _ _ (applyOneEdit_createdInv env st (i + 1) e h)

theorem stepWritesB_true_iff (env : Env) (st : LoopState) (rel : String)
    (hinv : ∀ r ∈ st.created, st.original r = some none) :
    stepWritesB env st rel = true ↔
      ∃ abs f, env.getAbsPath rel = some abs ∧ st.edited rel = some f ∧
        some f ≠ ((st.original rel).getD none).map normEol ∧ env.writeOk abs = true := by
  unfold stepWritesB needsWriteFlag
  cases hab : env.getAbsPath rel with
  | none => simp
  | some abs =>
    cases hed : st.edited rel with
    | none => simp
    | some f =>
      dsimp only
      by_cases hcr : rel ∈ st.created
      · rw [if_pos hcr]
        have hor := hinv rel hcr
        rw [hor]
        simp only [Bool.true_and, Option.getD_some, Option.map_none']
        constructor
        · intro hw
          exact ⟨abs, f, rfl, rfl, by simp, hw⟩
        · rintro ⟨abs', f', ha, hf', -, hw⟩
          cases ha
          cases hf'
          exact hw
      · rw [if_neg hcr]
        by_cases heq : some f = ((st.original rel).getD none).map normEol
        · have hd : decide (¬ (some f = ((st.original rel).getD none).map normEol)) = false := by
            simp [heq]
          rw [hd]
          simp only [Bool.false_and, Bool.false_eq_true, false_iff]
          rintro ⟨abs', f', ha, hf', hne, -⟩
          cases ha
          cases hf'
          exact hne heq
        · have hd : decide (¬ (some f = ((st.original rel).getD none).map normEol)) = true :=
            decide_eq_true heq
          rw [hd]
          simp only [Bool.true_and]
          constructor
          · intro hw
            exact ⟨abs, f, rfl, rfl, heq, hw⟩
          · rintro ⟨abs', f', ha, hf', -, hw⟩
            cases ha
            cases hf'
            exact hw

/-- **C3 (counterexample).** The batch `[("a.txt", "", "")]` against a
tracked `a.txt` absent from disk: the captured original is "did not
exist" (`some none`), the final in-memory content is the empty string —
so the file is *not* "newly created with content" and has no existing
content to differ from — yet `apply_edits` writes an empty `a.txt` and
reports it in `modifiedFiles`, contradicting the claimed iff. -/
theorem c3_counterexample_empty_creation :
    (applyEdits c1Env c3St c3Edits).modifiedFiles = ["a.txt"] ∧
    (loopStateOf c1Env c3St c3Edits).original "a.txt" = some none ∧
    (loopStateOf c1Env c3St c3Edits).edited "a.txt" = some "" ∧
    (applyEdits c1Env c3St c3Edits).allSucceeded = true ∧
    ¬ c3ClaimRhs none "" true := by
  refine ⟨rfl, rfl, rfl, rfl, ?_⟩
  rintro ⟨⟨o, ho, -⟩ | ⟨-, hne⟩, -⟩
  · cases ho
  · exact hne rfl

/-- **C3 (amended).** For every batch started from a fresh `apply_edits`
state, a path appears in the returned `modifiedFiles` iff it was touched,
it still resolves at write time, its final in-memory content differs —
as optional values, a file absent at batch start counting as different
from every string, *including the empty string* — from the normalised
disk content captured at batch start, and the final disk write for it
succeeded.  (The only change from the claim: a touched file that did not
exist on disk is written and reported even when its final content is
empty.) -/
theorem c3_amended_modified_iff (env : Env) (fnames : List String)
    (disk : String → Option String) (k : Nat) (edits : List Edit) (rel : String) :
    rel ∈ (applyEdits env (initialLoopState fnames disk k) edits).modifiedFiles ↔
      (rel ∈ (loopStateOf env (initialLoopState fnames disk k) edits).touched ∧
        ∃ abs f, env.getAbsPath rel = some abs ∧
          (loopStateOf env (initialLoopState fnames disk k) edits).edited rel = some f ∧
          some f ≠
            (((loopStateOf env (initialLoopState fnames disk k) edits).original rel).getD
              none).map normEol ∧
          env.writeOk abs = true) := by
  have hinv : ∀ r ∈ (loopStateOf env (initialLoopState fnames disk k) edits).created,
      (loopStateOf env (initialLoopState fnames disk k) edits).original r = some none := by
    apply applyLoop_createdInv
    intro r hr
    simp [initialLoopState] at hr
  unfold applyEdits applyEditsFull finalizePhase loopStateOf at *
  dsimp only
  rw [(finalizePhase_fold env (applyLoop env (initialLoopState fnames disk k) 0 edits).touched
        (applyLoop env (initialLoopState fnames disk k) 0 edits) [] false).2]
  rw [List.nil_append, List.mem_filter]
  constructor
  · rintro ⟨htch, hsw⟩
    exact ⟨htch, (stepWritesB_true_iff env _ rel hinv).mp hsw⟩
  · rintro ⟨htch, hex⟩
    exact ⟨htch, (stepWritesB_true_iff env _ rel hinv).mpr hex⟩

/-! ### C4: every instruction index is accounted for exactly once -/

theorem markTouched_failed (st : LoopState) (rel : String) :
    (markTouched st rel).failed = st.failed := rfl

theorem readInitStep_failed (st : LoopState) (rel abs : String) :
    (readInitStep st rel abs).failed = st.failed := by
  unfold readInitStep
  split <;> rfl

theorem markCreated_failed (st : LoopState) (rel current sb : String) :
    (markCreated st rel current sb).failed = st.failed := by
  unfold markCreated
  split <;> rfl

theorem applyOneEdit_failed (env : Env) (st : LoopState) (idx : Nat) (e : Edit) :
    (applyOneEdit env st idx e).1.failed =
      st.failed ++
        (if (applyOneEdit env st idx e).2 = EditOutcome.failed then [idx] else []) := by
  unfold applyOneEdit
  cases env.getAbsPath e.1 with
  | none => simp [failEdit]
  | some abs =>
    dsimp only
    obtain ⟨hf, -, -, -, -⟩ := gateStep_fields env st e.1 (env.getRelPath abs)
    split
    · simp [failEdit]
    · split
      · simp [failEdit, hf]
      · set st3 := readInitStep
          (markTouched (gateStep env st e.1 (env.getRelPath abs)).1 (env.getRelPath abs))
          (env.getRelPath abs) abs with hst3
        have h3 : st3.failed = st.failed := by
          rw [hst3, readInitStep_failed, markTouched_failed, hf]
        split
        · simp [failEdit, h3]
        · split
          · simp [markCreated_failed, h3]
          · simp [markCreated_failed, h3]

theorem applyOneEdit_outcome_idx (env : Env) (st : LoopState) (e : Edit) (idx idx' : Nat) :
    (applyOneEdit env st idx e).2 = (applyOneEdit env st idx' e).2 := by
  unfold applyOneEdit
  cases env.getAbsPath e.1 with
  | none => rfl
  | some abs =>
    dsimp only
    split
    · rfl
    · split
      · rfl
      · split
        · rfl
        · split <;> rfl

theorem applyLoop_failed_low (env : Env) :
    ∀ (l : List Edit) (st : LoopState) (i x : Nat), x < i + 1 →
      (x ∈ (applyLoop env st i l).failed ↔ x ∈ st.failed) := by
  intro l
  induction l with
  | nil => intro st i x _; exact Iff.rfl
  | cons e rest ih =>
    intro st i x hx
    have hstep : applyLoop env st i (e :: rest) =
        applyLoop env (applyOneEdit env st (i + 1) e).1 (i + 1) rest := rfl
    rw [hstep, ih _ (i + 1) x (by omega), applyOneEdit_failed env st (i + 1) e]
    rw [List.mem_append]
    constructor
    · rintro (h | h)
      · exact h
      · exfalso
        split at h
        · simp only [List.mem_singleton] at h
          omega
        · cases h
    · intro h
      exact Or.inl h

theorem applyLoop_failed_mem (env : Env) :
    ∀ (l : List Edit) (st : LoopState) (i j : Nat),
      ((i + j + 1) ∈ (applyLoop env st i l).failed ↔
        (i + j + 1) ∈ st.failed ∨
          (j < l.length ∧
            (applyOneEdit env (applyLoop env st i (l.take j)) (i + j + 1)
              (l.getD j ("", "", ""))).2 = EditOutcome.failed)) := by
  intro l
  induction l with
  | nil =>
    intro st i j
    simp [applyLoop]
  | cons e rest ih =>
    intro st i j
    have hstep : applyLoop env st i (e :: rest) =
        applyLoop env (applyOneEdit env st (i + 1) e).1 (i + 1) rest := rfl
    cases j with
    | zero =>
      rw [hstep, applyLoop_failed_low env rest _ (i + 1) (i + 0 + 1) (by omega),
        applyOneEdit_failed env st (i + 1) e]
      rw [List.mem_append]
      constructor
      · rintro (h | h)
        · exact Or.inl h
        · right
          refine ⟨by simp, ?_⟩
          split at h
          · rename_i hout
            exact hout
          · cases h
      · rintro (h | ⟨-, hout⟩)
        · exact Or.inl h
        · right
          have hout' : (applyOneEdit env st (i + 1) e).2 = EditOutcome.failed := hout
          rw [if_pos hout']
          simp
    | succ j' =>
      have harith : i + (j' + 1) + 1 = (i + 1) + j' + 1 := by omega
      rw [hstep, harith, ih _ (i + 1) j', applyOneEdit_failed env st (i + 1) e]
      rw [List.mem_append]
      have hne : (i + 1) + j' + 1 ∉
          (if (applyOneEdit env st (i + 1) e).2 = EditOutcome.failed
           then [i + 1] else ([] : List Nat)) := by
        split
        · simp only [List.mem_singleton]
          omega
        · simp
      constructor
      · rintro ((h | h) | h)
        · exact Or.inl h
        · exact absurd h hne
        · right
          simpa using h
      · rintro (h | h)
        · exact Or.inl (Or.inl h)
        · right
          simpa using h

theorem applyLoop_failed_bound_nodup (env : Env) :
    ∀ (l : List Edit) (st : LoopState) (i : Nat),
      (∀ x ∈ st.failed, x < i + 1) → st.failed.Nodup →
      ((∀ x ∈ (applyLoop env st i l).failed, x < i + l.length + 1) ∧
        (applyLoop env st i l).failed.Nodup) := by
  intro l
  induction l with
  | nil =>
    intro st i hb hn
    exact ⟨fun x hx => by have := hb x hx; omega, hn⟩
  | cons e rest ih =>
    intro st i hb hn
    have hstep : applyLoop env st i (e :: rest) =
        applyLoop env (applyOneEdit env st (i + 1) e).1 (i + 1) rest := rfl
    rw [hstep]
    have hb1 : ∀ x ∈ (applyOneEdit env st (i + 1) e).1.failed, x < (i + 1) + 1 := by
      intro x hx
      rw [applyOneEdit_failed env st (i + 1) e, List.mem_append] at hx
      rcases hx with hx | hx
      · have := hb x hx; omega
      · split at hx
        · simp only [List.mem_singleton] at hx
          omega
        · cases hx
    have hn1 : (applyOneEdit env st (i + 1) e).1.failed.Nodup := by
      rw [applyOneEdit_failed env st (i + 1) e]
      split
      · refine List.Nodup.append hn (by simp) ?_
        intro x hx hx'
        simp only [List.mem_singleton] at hx'
        have := hb x hx
        omega
      · simpa using hn
    have := ih _ (i + 1) hb1 hn1
    refine ⟨fun x hx => ?_, this.2⟩
    have := this.1 x hx
    simp only [List.length_cons]
    omega

/-- **C4.** For every batch started from a fresh `apply_edits` state, each
1-based instruction index is accounted for exactly once: position `i`
(0-based) lands in `failedIndices` iff its outcome is `.failed`;
`outcomeAt` is total, its only other values being `.applied` (the branch
that changed the in-memory content) and `.noop` (the no-change branch);
every recorded failed index comes from an actual instruction position;
and `failedIndices` holds no duplicates — so no index is skipped and
none is counted twice. -/
theorem c4_every_index_accounted (env : Env) (fnames : List String)
    (disk : String → Option String) (k : Nat) (edits : List Edit) :
    (∀ i, i < edits.length →
      ((i + 1) ∈ (applyEdits env (initialLoopState fnames disk k) edits).failedIndices ↔
        outcomeAt env (initialLoopState fnames disk k) edits i = EditOutcome.failed)) ∧
    (∀ i, outcomeAt env (initialLoopState fnames disk k) edits i = EditOutcome.applied ∨
      outcomeAt env (initialLoopState fnames disk k) edits i = EditOutcome.noop ∨
      outcomeAt env (initialLoopState fnames disk k) edits i = EditOutcome.failed) ∧
    (∀ x ∈ (applyEdits env (initialLoopState fnames disk k) edits).failedIndices,
      1 ≤ x ∧ x ≤ edits.length) ∧
    ((applyEdits env (initialLoopState fnames disk k) edits).failedIndices).Nodup := by
  have hfi : (applyEdits env (initialLoopState fnames disk k) edits).failedIndices =
      (applyLoop env (initialLoopState fnames disk k) 0 edits).failed := rfl
  have hbn := applyLoop_failed_bound_nodup env edits (initialLoopState fnames disk k) 0
    (by intro x hx; simp [initialLoopState] at hx) (by simp [initialLoopState])
  refine ⟨?_, ?_, ?_, ?_⟩
  · intro i hi
    rw [hfi]
    have := applyLoop_failed_mem env edits (initialLoopState fnames disk k) 0 i
    have h0 : (0 : Nat) + i + 1 = i + 1 := by omega
    rw [h0] at this
    rw [this]
    simp only [initialLoopState, List.not_mem_nil, false_or]
    unfold outcomeAt
    constructor
    · rintro ⟨-, h⟩
      exact h
    · intro h
      exact ⟨hi, h⟩
  · intro i
    cases h : outcomeAt env (initialLoopState fnames disk k) edits i
    · exact Or.inl rfl
    · exact Or.inr (Or.inl rfl)
    · exact Or.inr (Or.inr rfl)
  · intro x hx
    rw [hfi] at hx
    have := hbn.1 x hx
    have hx1 : x ∈ (applyLoop env (initialLoopState fnames disk k) 0 edits).failed := hx
    -- lower bound: initial failed list is empty and appended indices are ≥ 1
    have hlow : ∀ (l : List Edit) (st : LoopState) (i : Nat),
        (∀ y ∈ st.failed, 1 ≤ y) → ∀ y ∈ (applyLoop env st i l).failed, 1 ≤ y := by
      intro l
      induction l with
      | nil => intro st i h; exact h
      | cons e rest ih =>
        intro st i h
        have hstep : applyLoop env st i (e :: rest) =
            applyLoop env (applyOneEdit env st (i + 1) e).1 (i + 1) rest := rfl
        rw [hstep]
        apply ih
        intro y hy
        rw [applyOneEdit_failed env st (i + 1) e, List.mem_append] at hy
        rcases hy with hy | hy
        · exact h y hy
        · split at hy
          · simp only [List.mem_singleton] at hy
            omega
          · cases hy
    have h1 := hlow edits (initialLoopState fnames disk k) 0
      (by intro y hy; simp [initialLoopState] at hy) x hx1
    omega
  · rw [hfi]
    exact hbn.2

/-! ### C6 and C7: the reflection loop -/

/-- **C6 (code bug).** Evaluating `run_one` with `non_interactive = true`
on a turn whose edits apply cleanly but leave a lint error: no reflection
turn is started and edits are attempted exactly once — but the
interactive lint-fix confirmation prompt IS shown (once), because
`process_user_input` calls `_prompt_for_confirmation` at app.py line 910
without consulting `non_interactive`, although `run_one`'s own docstring
says `non_interactive` "disables interactive features like the lint
reflection prompt". -/
theorem c6_lint_prompt_shown_in_non_interactive :
    (runOne c6Oracle "code" true).numReflections = 0 ∧
    (runOne c6Oracle "code" true).applyCalls = 1 ∧
    (runOne c6Oracle "code" true).lintPromptsShown = 1 :=
  ⟨rfl, rfl, rfl⟩

/-- **C7.** Within one `run_one` call, at most 3 reflection round-trips
are performed, whatever the model and user do; and in interactive mode
the loop always exits with no pending reflected message — in particular,
when the counter reaches the bound the pending message is cleared and the
loop stops.  (Termination is inherent: the loop is a total function.) -/
theorem c7_reflection_bounded (o : TurnOracle) (mode : String) (b : Bool) :
    (runOne o mode b).numReflections ≤ 3 ∧
    (b = false → (runOne o mode b).state.reflectedMessage = none) := by
  have hnum : ∀ (fuel num : Nat) (st : AppPState) (calls prompts : Nat), num ≤ 3 →
      (reflLoop o mode b fuel num st calls prompts).numReflections ≤ 3 := by
    intro fuel
    induction fuel with
    | zero => intro num st calls prompts h; exact h
    | succ f ih =>
      intro num st calls prompts h
      unfold reflLoop
      split
      · split
        · exact h
        · exact ih (num + 1) _ _ _ (by omega)
      · exact h
  have hclear : ∀ (fuel num : Nat) (st : AppPState) (calls prompts : Nat),
      4 ≤ fuel + num → num ≤ 3 → b = false →
      (reflLoop o mode b fuel num st calls prompts).state.reflectedMessage = none := by
    intro fuel
    induction fuel with
    | zero => intro num st calls prompts h1 h2 _; omega
    | succ f ih =>
      intro num st calls prompts h1 h2 hb
      unfold reflLoop
      split
      · split
        · rfl
        · exact ih (num + 1) _ _ _ (by omega) (by omega) hb
      · rename_i hcond
        subst hb
        dsimp only
        by_cases hm : st.reflectedMessage = none
        · exact hm
        · exact absurd ⟨rfl, hm⟩ hcond
  unfold runOne
  exact ⟨hnum 4 0 _ _ _ (by omega), fun hb => hclear 4 0 _ _ _ (by omega) (by omega) hb⟩

/-- Witness for C7: with a model that fails an edit on every turn
(`c7Oracle`), exactly 3 reflections happen and the pending reflection is
cleared at the bound. -/
theorem c7_reflection_bounded_witness :
    (runOne c7Oracle "code" false).numReflections = 3 ∧
    (runOne c7Oracle "code" false).state.reflectedMessage = none :=
  ⟨rfl, (c7_reflection_bounded c7Oracle "code" false).2 rfl⟩

/-! ### C8: the parser is total -/

theorem pySplitOnce_ne_nil (l : List Char) : pySplitOnce l ≠ [] := by
  unfold pySplitOnce
  cases findSub ['\n'] l <;> simp

theorem exists_head_opt {α : Type} {l : List α} (h : l ≠ []) : ∃ x, l.head? = some x := by
  cases l with
  | nil => exact absurd rfl h
  | cons a t => exact ⟨a, rfl⟩

theorem exists_get_opt {α : Type} :
    ∀ (l : List α) (n : Nat), n < l.length → ∃ x, l.get? n = some x
  | a :: _, 0, _ => ⟨a, rfl⟩
  | _ :: t, n + 1, h => exists_get_opt t n (by simpa using h)
  | [], _, h => absurd h (by simp)

theorem exists_getLast_opt {α : Type} :
    ∀ (l : List α), l ≠ [] → ∃ x, l.getLast? = some x := by
  intro l
  induction l with
  | nil => intro h; exact absurd rfl h
  | cons a t ih =>
    intro _
    cases t with
    | nil => exact ⟨a, rfl⟩
    | cons b u =>
      obtain ⟨x, hx⟩ := ih (by simp)
      exact ⟨x, by rw [List.getLast?_cons_cons]; exact hx⟩

theorem insertSorted_ne_nil (x : String) (l : List String) : insertSorted x l ≠ [] := by
  cases l with
  | nil => simp [insertSorted]
  | cons y t => unfold insertSorted; split <;> simp

theorem sortFnames_ne_nil {l : List String} (h : l ≠ []) : sortFnames l ≠ [] := by
  cases l with
  | nil => exact absurd rfl h
  | cons x t => exact insertSorted_ne_nil x (sortFnames t)

theorem resolveCase1_isSome (contentFull firstLineInside : List Char)
    (inner0 : List (List Char × List Char)) :
    (resolveCase1 contentFull firstLineInside inner0).isSome = true := by
  unfold resolveCase1
  split
  · split
    · rename_i hlen
      obtain ⟨l1, hl1⟩ := exists_get_opt (pySplitOnce contentFull) 1 hlen
      rw [hl1]
      dsimp only
      split <;> rfl
    · rfl
  · rfl

theorem resolveCase2_isSome (response : List Char) (lastPos start : Nat)
    (contentFull : List Char) (fname1 : Option (List Char))
    (inner1 : List (List Char × List Char)) :
    (resolveCase2 response lastPos start contentFull fname1 inner1).isSome = true := by
  unfold resolveCase2
  cases fname1 with
  | some f => rfl
  | none =>
    dsimp only
    split
    all_goals
      split
      · rename_i hne
        obtain ⟨lb, hlb⟩ := exists_getLast_opt _ hne
        rw [hlb]
        dsimp only
        split <;> rfl
      · rfl

theorem processBlock_isSome (response : List Char) (fnames : List String)
    (lastPos start : Nat) (contentFull : List Char) (endPos : Nat) :
    (processBlock response fnames lastPos start contentFull endPos).isSome = true := by
  unfold processBlock
  dsimp only
  split
  · rfl
  · obtain ⟨l0, hl0⟩ := exists_head_opt (pySplitOnce_ne_nil contentFull)
    rw [hl0]
    dsimp only
    have h1 := resolveCase1_isSome contentFull (pyStrip l0) (editBlocksIn contentFull)
    cases hc1 : resolveCase1 contentFull (pyStrip l0) (editBlocksIn contentFull) with
    | none => rw [hc1] at h1; simp at h1
    | some p1 =>
      obtain ⟨fname1, inner1⟩ := p1
      dsimp only
      have h2 := resolveCase2_isSome response lastPos start contentFull fname1 inner1
      cases hc2 : resolveCase2 response lastPos start contentFull fname1 inner1 with
      | none => rw [hc2] at h2; simp at h2
      | some p2 =>
        obtain ⟨fname2, inner2⟩ := p2
        dsimp only
        cases fname2 with
        | some f => rfl
        | none =>
          dsimp only
          split
          · rename_i hfn
            obtain ⟨f0, hf0⟩ := exists_head_opt (sortFnames_ne_nil hfn)
            rw [hf0]
            rfl
          · rfl

theorem parseGo_isSome (response : List Char) (fnames : List String) :
    ∀ (blocks : List (Nat × List Char × Nat)) (lastPos : Nat),
      (parseGo response fnames blocks lastPos).isSome = true := by
  intro blocks
  induction blocks with
  | nil => intro lastPos; rfl
  | cons b rest ih =>
    intro lastPos
    obtain ⟨start, content, endPos⟩ := b
    unfold parseGo
    have h1 := processBlock_isSome response fnames lastPos start content endPos
    cases hc : processBlock response fnames lastPos start content endPos with
    | none => rw [hc] at h1; simp at h1
    | some p =>
      obtain ⟨es, lastPos'⟩ := p
      dsimp only
      have h2 := ih lastPos'
      cases hc2 : parseGo response fnames rest lastPos' with
      | none => rw [hc2] at h2; simp at h2
      | some tail => rfl

/-- **C8.** For every input string (and any tracked working set),
`EditParser.parse` returns a list of edit instructions without raising:
every Python sequence indexing in it is guarded (`none` in the embedding
would be an uncaught `IndexError`), and malformed or unresolvable fenced
blocks contribute no edits — they are skipped by the `continue` branches
(warnings are logging only) — rather than causing an error. -/
theorem c8_parse_never_raises (response : String) (fnames : List String) :
    ∃ edits, parseOpt response fnames = some edits := by
  unfold parseOpt
  have h := parseGo_isSome response.data fnames (codeBlockMatches response.data) 0
  cases hc : parseGo response.data fnames (codeBlockMatches response.data) 0 with
  | none => rw [hc] at h; simp at h
  | some raw => exact ⟨raw.map postProcessEdit, rfl⟩

end TinyCoder
